import Mathlib

/-
Shallow embedding of examples/onnxrt/onnx_model_zoo/gpt2/gpt2.py: the
TextDataset token-block cache builder, the evaluate loop with its warm-up
timing discipline and iteration cap, the performance/accuracy finalization,
the ONNX Runtime input binding, and the shifted cross-entropy loss.
-/

/-- Python range(0, stop, step) for a positive step, as the list of produced
start indices (natural numbers). An empty list results when stop is not
positive. -/
def rangeStep (stop : Int) (step : Nat) : List Nat :=
  (List.range ((stop.toNat + step - 1) / step)).map (fun j => j * step)

/-- External library call: GPT2Tokenizer.build_inputs_with_special_tokens for a
single sequence returns the token id list unchanged (the GPT-2 tokenizer adds
no special tokens by default, and MODEL_CLASSES only maps gpt2). -/
def build_inputs_with_special_tokens (ids : List Nat) : List Nat := ids

/-- Fresh-build path of TextDataset.__init__: for i in
range(0, len(tokenized_text) - block_size + 1, block_size), append
build_inputs_with_special_tokens(tokenized_text[i : i + block_size]). -/
def textDatasetExamples (tokenized_text : List Nat) (block_size : Nat) :
    List (List Nat) :=
  (rangeStep ((tokenized_text.length : Int) - block_size + 1) block_size).map
    (fun i => build_inputs_with_special_tokens
      ((tokenized_text.drop i).take block_size))

/-- Decimal digits of n, least significant first, with the digits of 0 spelled
as the single digit 0, matching the string produced by Python str. -/
def digitsOf (n : Nat) : List Nat :=
  if n = 0 then [0] else Nat.digits 10 n

/-- Python str(n) for a natural number, as a list of characters
(most significant digit first). -/
def numeral (n : Nat) : List Char :=
  (digitsOf n).reverse.map Nat.digitChar

/-- Directory part of the cache path: os.path.join with "./dataset_cached". -/
def dirNamePart : List Char := "./dataset_cached/".data

/-- The literal separator between the model identifier and the block size in
the cache file name. -/
def cacheSep : List Char := "_cached_lm_".data

/-- cached_features_file from TextDataset.__init__:
"./dataset_cached/" + model_name_or_path + "_cached_lm_" + str(block_size)
+ "_" + filename. -/
def cached_features_file (model_name_or_path : List Char) (block_size : Nat)
    (filename : List Char) : List Char :=
  dirNamePart ++ model_name_or_path ++ cacheSep ++ numeral block_size ++
    ['_'] ++ filename

/-- Durable storage holding pickled example lists keyed by file path;
pickle round-trips exactly, so the stored value is the example list itself. -/
def Store : Type := List Char → Option (List (List Nat))

/-- Writing a cache artifact: pickle.dump of the example list at the key. -/
def updateStore (st : Store) (key : List Char) (v : List (List Nat)) : Store :=
  fun k => if k = key then some v else st k

/-- Result of constructing a TextDataset: the examples list, the storage after
the call, and whether the tokenizer pipeline was invoked. -/
structure InitResult where
  examples : List (List Nat)
  store : Store
  tokenized : Bool

/-- TextDataset.__init__: if the cache artifact exists and overwrite_cache is
off, load the pickled examples without tokenizing; otherwise tokenize the
corpus, build the blocks and save them under the cache key. -/
def textDatasetInit (st : Store) (model_name_or_path filename : List Char)
    (block_size : Nat) (overwrite_cache : Bool) (tokenized_text : List Nat) :
    InitResult :=
  let key := cached_features_file model_name_or_path block_size filename
  match st key, overwrite_cache with
  | some cached, false => ⟨cached, st, false⟩
  | _, _ =>
      let ex := textDatasetExamples tokenized_text block_size
      ⟨ex, updateStore st key ex, true⟩

/-- Mutable accumulator state of the evaluate loop: eval_loss, nb_eval_steps
and total_time, over an abstract numeric carrier standing for Python floats. -/
structure EvalState (A : Type) where
  eval_loss : A
  nb_eval_steps : Nat
  total_time : A

/-- The state before the loop: eval_loss = 0.0, nb_eval_steps = 0,
total_time = 0.0. -/
def initState (A : Type) [Zero A] : EvalState A := ⟨0, 0, 0⟩

/-- One iteration of the evaluate loop body, abstracted over the per-step
scalar loss and the per-step wall-clock duration: accumulate the loss,
count the step, and add the duration to total_time only when the pre-increment
nb_eval_steps is at least warmup_steps. -/
def evalStep {A : Type} [Add A] (warmup_steps : Int) (s : EvalState A)
    (x : A × A) : EvalState A :=
  ⟨s.eval_loss + x.1, s.nb_eval_steps + 1,
    if warmup_steps ≤ (s.nb_eval_steps : Int) then s.total_time + x.2
    else s.total_time⟩

/-- The evaluate loop over the dataloader, one (loss, duration) pair per batch:
after each step it breaks when iter > 0 and nb_eval_steps exceeds
warmup_steps + iter. -/
def evalLoop {A : Type} [Add A] (warmup_steps iter : Int) :
    List (A × A) → EvalState A → EvalState A
  | [], s => s
  | x :: rest, s =>
      let s2 := evalStep warmup_steps s x
      if 0 < iter ∧ warmup_steps + iter < (s2.nb_eval_steps : Int) then s2
      else evalLoop warmup_steps iter rest s2

/-- The accuracy-path division at the tail of evaluate:
eval_loss = eval_loss / nb_eval_steps. -/
def meanLoss {A : Type} [DivisionRing A] (s : EvalState A) : A :=
  s.eval_loss / (s.nb_eval_steps : A)

/-- Observable outcome of the performance branch of evaluate: the printed
throughput together with the printed latency when present, the no-performance
diagnostic, or an uncaught Python ZeroDivisionError. -/
inductive PerfOutcome (A : Type) where
  | report (throughput : A) (latency : Option A)
  | noPerf
  | zeroDivError

/-- The performance branch at the tail of evaluate: when
nb_eval_steps >= warmup_steps, compute
perf = (nb_eval_steps - warmup_steps) * eval_batch_size / total_time and,
when eval_batch_size == 1, print total_time / (nb_eval_steps - warmup_steps)
* 1000 as the latency in milliseconds; a Python float division with a zero
denominator is modeled as zeroDivError. Otherwise log the no-performance
diagnostic. -/
def perfStage {A : Type} [LinearOrderedField A] [DecidableEq A]
    (warmup_steps eval_batch_size : Int) (s : EvalState A) : PerfOutcome A :=
  if warmup_steps ≤ (s.nb_eval_steps : Int) then
    if s.total_time = 0 then PerfOutcome.zeroDivError
    else
      if eval_batch_size = 1 then
        if ((s.nb_eval_steps : Int) - warmup_steps) = 0 then
          PerfOutcome.zeroDivError
        else
          PerfOutcome.report
            (((((s.nb_eval_steps : Int) - warmup_steps) * eval_batch_size : Int) : A)
              / s.total_time)
            (some (s.total_time / ((((s.nb_eval_steps : Int) - warmup_steps) : Int) : A)
              * 1000))
      else
        PerfOutcome.report
          (((((s.nb_eval_steps : Int) - warmup_steps) * eval_batch_size : Int) : A)
            / s.total_time)
          none
  else PerfOutcome.noPerf

/-- Sum of the step durations whose zero-based step index is at least
warmup_steps, for a run of steps starting at index k: the post-warm-up
elapsed time. -/
def timedSum {A : Type} [AddMonoid A] (warmup_steps : Int) :
    Nat → List (A × A) → A
  | _, [] => 0
  | k, x :: rest =>
      (if warmup_steps ≤ (k : Int) then x.2 else 0) +
        timedSum warmup_steps (k + 1) rest

/-- Shape effect of np.expand_dims(t, axis=0). -/
def expand_dims0 (shape : List Nat) : List Nat := 1 :: shape

/-- Shapes bound to the declared input names of the session, in order: the
loop for i in range(len_inputs) re-applies expand_dims to the running batch
tensor before binding it to inputs_names[i]. The argument is the shape of the
dataloader batch. -/
def ortInputShapes : Nat → List Nat → List (List Nat)
  | 0, _ => []
  | n + 1, cur => expand_dims0 cur :: ortInputShapes n (expand_dims0 cur)

/-- lm_logits = predictions[0]: the first declared output of session.run. -/
def lmLogitsOf {A : Type} (predictions : List A) : Option A :=
  predictions.head?

/-- External library call torch.nn.CrossEntropyLoss with ignore_index = -1 and
default mean reduction, with the per-row vocabulary cross-entropy left
abstract as the parameter cel: the mean of cel over the (input row, target)
pairs whose target differs from -1. -/
def CrossEntropyLossMean {A : Type} [Field A] (cel : List A → Int → A)
    (input : List (List A)) (target : List Int) : A :=
  let kept := (input.zip target).filter (fun p => p.2 ≠ -1)
  (kept.map (fun p => cel p.1 p.2)).sum / ((kept.length : Nat) : A)

/-- lm_loss from evaluate: shift the logits by dropping the last position and
the labels by dropping the first position, flatten, and apply the
cross-entropy loss. -/
def lm_loss {A : Type} [Field A] (cel : List A → Int → A)
    (lm_logits : List (List A)) (labels : List Int) : A :=
  CrossEntropyLossMean cel lm_logits.dropLast (labels.drop 1)

/-- Core bookkeeping of the evaluate loop: the step counter only grows, the
accumulated eval_loss is the sum of the losses of the consumed prefix of
steps, and the accumulated total_time is the sum of the durations of the
consumed steps whose zero-based index is at least warmup_steps. -/
theorem evalLoop_consume {A : Type} [AddMonoid A] (w it : Int)
    (steps : List (A × A)) :
    ∀ s : EvalState A,
      s.nb_eval_steps ≤ (evalLoop w it steps s).nb_eval_steps ∧
      (evalLoop w it steps s).eval_loss =
        s.eval_loss +
          ((steps.take
              ((evalLoop w it steps s).nb_eval_steps - s.nb_eval_steps)).map
            Prod.fst).sum ∧
      (evalLoop w it steps s).total_time =
        s.total_time +
          timedSum w s.nb_eval_steps
            (steps.take
              ((evalLoop w it steps s).nb_eval_steps - s.nb_eval_steps)) := by
  induction steps with
  | nil =>
      intro s
      simp [evalLoop, timedSum]
  | cons x rest ih =>
      intro s
      simp only [evalLoop]
      by_cases hbr : 0 < it ∧ w + it < ((evalStep w s x).nb_eval_steps : Int)
      · rw [if_pos hbr]
        refine ⟨by simp [evalStep], ?_, ?_⟩
        · simp [evalStep, List.take_succ_cons]
        · simp only [evalStep]
          by_cases hw : w ≤ (s.nb_eval_steps : Int)
          · simp [hw, timedSum]
          · simp [hw, timedSum]
      · rw [if_neg hbr]
        obtain ⟨h1, h2, h3⟩ := ih (evalStep w s x)
        have hstep : (evalStep w s x).nb_eval_steps = s.nb_eval_steps + 1 := rfl
        have hm : (evalLoop w it rest (evalStep w s x)).nb_eval_steps -
              s.nb_eval_steps =
            ((evalLoop w it rest (evalStep w s x)).nb_eval_steps -
              (evalStep w s x).nb_eval_steps) + 1 := by
          omega
        refine ⟨by omega, ?_, ?_⟩
        · rw [hm, List.take_succ_cons, List.map_cons, List.sum_cons, h2]
          simp [evalStep, add_assoc]
        · rw [hm, List.take_succ_cons, h3]
          simp only [timedSum, hstep, evalStep]
          by_cases hw : w ≤ (s.nb_eval_steps : Int)
          · simp [hw, add_assoc]
          · simp [hw]

/-- With iter = 0 the break test never fires, so the loop consumes every step. -/
theorem evalLoop_iter_zero_nb {A : Type} [Add A] (w : Int)
    (steps : List (A × A)) :
    ∀ s : EvalState A,
      (evalLoop w 0 steps s).nb_eval_steps = s.nb_eval_steps + steps.length := by
  induction steps with
  | nil => intro s; simp [evalLoop]
  | cons x rest ih =>
      intro s
      simp only [evalLoop]
      rw [if_neg (by simp)]
      rw [ih (evalStep w s x)]
      have hstep : (evalStep w s x).nb_eval_steps = s.nb_eval_steps + 1 := rfl
      rw [hstep]
      simp
      omega

/-- C10: with the default iteration cap 0 the early-exit branch is never
taken, for every warmup_steps value: the evaluation loop processes every block
and the final step counter equals the dataset length. -/
theorem evalLoop_no_cap (w : Int) (steps : List (Real × Real)) :
    (evalLoop w 0 steps (initState Real)).nb_eval_steps = steps.length := by
  rw [evalLoop_iter_zero_nb w steps (initState Real)]
  simp [initState]

/-- Invariant bounding the step counter under a positive iteration cap. -/
theorem evalLoop_nb_le_cap {A : Type} [Add A] (w it : Int) (hit : 0 < it)
    (steps : List (A × A)) :
    ∀ s : EvalState A, s.nb_eval_steps ≤ (w + it).toNat →
      (evalLoop w it steps s).nb_eval_steps ≤ (w + it).toNat + 1 := by
  induction steps with
  | nil => intro s hs; simp only [evalLoop]; omega
  | cons x rest ih =>
      intro s hs
      simp only [evalLoop]
      by_cases hbr : 0 < it ∧ w + it < ((evalStep w s x).nb_eval_steps : Int)
      · rw [if_pos hbr]
        have hstep : (evalStep w s x).nb_eval_steps = s.nb_eval_steps + 1 := rfl
        omega
      · rw [if_neg hbr]
        apply ih
        have h2 : ¬ (w + it < ((evalStep w s x).nb_eval_steps : Int)) :=
          fun hlt => hbr ⟨hit, hlt⟩
        have hstep : (evalStep w s x).nb_eval_steps = s.nb_eval_steps + 1 := rfl
        rw [hstep] at h2
        omega

/-- C3 amended: with a positive iteration cap and nonnegative warmup_steps the
evaluation loop accounts at most warmup_steps + iter + 1 steps (the break
fires only once nb_eval_steps exceeds warmup_steps + iter); in particular with
warmup_steps = 2 and iter = 3 the final counter is at most 6. -/
theorem evalLoop_cap (w it : Int) (hw : 0 ≤ w) (hit : 0 < it)
    (steps : List (Real × Real)) :
    (evalLoop w it steps (initState Real)).nb_eval_steps ≤ (w + it).toNat + 1 :=
  evalLoop_nb_le_cap w it hit steps (initState Real) (by simp [initState])

/-- Witness for the amended C3 at warmup_steps = 2, iter = 3 and ten steps. -/
theorem evalLoop_cap_witness :
    (0 : Int) ≤ 2 ∧ (0 : Int) < 3 ∧
      (evalLoop 2 3 (List.replicate 10 ((1 : Real), 1))
          (initState Real)).nb_eval_steps ≤ ((2 : Int) + 3).toNat + 1 :=
  ⟨by decide, by decide,
    evalLoop_cap 2 3 (by decide) (by decide) (List.replicate 10 ((1 : Real), 1))⟩

/-- C3 counterexample: with warmup_steps = 2, iter = 3 and a dataset of ten
blocks the loop accounts six steps, so the final step counter exceeds 5. -/
theorem evalLoop_cap_counterexample :
    (evalLoop 2 3 (List.replicate 10 ((1 : Real), 1))
        (initState Real)).nb_eval_steps = 6 ∧
      ¬ (evalLoop 2 3 (List.replicate 10 ((1 : Real), 1))
          (initState Real)).nb_eval_steps ≤ 5 := by
  constructor
  · decide
  · decide

/-- C1: the value returned by evaluate equals
100 - exp(eval_loss / nb_eval_steps) with eval_loss exactly the sum of the
per-step losses over the accounted steps (warm-up steps included) and
nb_eval_steps their count, and the reported perplexity equals the exponential
of that mean loss. -/
theorem evaluate_accuracy_formula (w it : Int) (steps : List (Real × Real))
    (h : 1 ≤ (evalLoop w it steps (initState Real)).nb_eval_steps) :
    (100 : Real) - Real.exp (meanLoss (evalLoop w it steps (initState Real))) =
        100 - Real.exp
          (((steps.take
                ((evalLoop w it steps (initState Real)).nb_eval_steps)).map
              Prod.fst).sum /
            ((evalLoop w it steps (initState Real)).nb_eval_steps : Real)) ∧
      Real.exp (meanLoss (evalLoop w it steps (initState Real))) =
        Real.exp
          (((steps.take
                ((evalLoop w it steps (initState Real)).nb_eval_steps)).map
              Prod.fst).sum /
            ((evalLoop w it steps (initState Real)).nb_eval_steps : Real)) := by
  have hel : (evalLoop w it steps (initState Real)).eval_loss =
      ((steps.take
          ((evalLoop w it steps (initState Real)).nb_eval_steps)).map
        Prod.fst).sum := by
    have hc := (evalLoop_consume w it steps (initState Real)).2.1
    simpa [initState] using hc
  constructor
  · rw [meanLoss, hel]
  · rw [meanLoss, hel]

/-- Witness for C1 at a one-step run. -/
theorem evaluate_accuracy_formula_witness :
    1 ≤ (evalLoop 0 0 [((1 : Real), 1)] (initState Real)).nb_eval_steps ∧
      ((100 : Real) -
            Real.exp (meanLoss (evalLoop 0 0 [((1 : Real), 1)] (initState Real))) =
          100 - Real.exp
            ((([((1 : Real), 1)].take
                  ((evalLoop 0 0 [((1 : Real), 1)] (initState Real)).nb_eval_steps)).map
                Prod.fst).sum /
              ((evalLoop 0 0 [((1 : Real), 1)] (initState Real)).nb_eval_steps : Real)) ∧
        Real.exp (meanLoss (evalLoop 0 0 [((1 : Real), 1)] (initState Real))) =
          Real.exp
            ((([((1 : Real), 1)].take
                  ((evalLoop 0 0 [((1 : Real), 1)] (initState Real)).nb_eval_steps)).map
                Prod.fst).sum /
              ((evalLoop 0 0 [((1 : Real), 1)] (initState Real)).nb_eval_steps : Real))) :=
  ⟨by decide, evaluate_accuracy_formula 0 0 [((1 : Real), 1)] (by decide)⟩

/-- A run of steps whose indices all lie before warmup_steps accumulates no
elapsed time. -/
theorem timedSum_eq_zero {A : Type} [AddMonoid A] (w : Int) :
    ∀ (l : List (A × A)) (k : Nat), (k : Int) + l.length ≤ w →
      timedSum w k l = 0 := by
  intro l
  induction l with
  | nil => intro k _; simp [timedSum]
  | cons x rest ih =>
      intro k hk
      simp only [List.length_cons] at hk
      simp only [timedSum]
      rw [if_neg (by push_cast at hk ⊢; omega),
        ih (k + 1) (by push_cast at hk ⊢; omega)]
      simp

/-- C4: the code, not the claim, is at fault here. At nb_eval_steps equal to
warmup_steps the guard nb_eval_steps >= warmup_steps admits the performance
branch with a zero total_time (no step was timed), so evaluate raises an
uncaught ZeroDivisionError instead of logging the no-performance diagnostic:
concretely with warmup_steps = 2, eval_batch_size = 4 and a dataset of exactly
two blocks. -/
theorem perfStage_zero_div_at_warmup :
    perfStage 2 4
        (evalLoop 2 0 [((1 : Real), 1), ((1 : Real), 1)] (initState Real)) =
      PerfOutcome.zeroDivError := by
  have h1 : (evalLoop 2 0 [((1 : Real), 1), ((1 : Real), 1)]
      (initState Real)).nb_eval_steps = 2 := by decide
  have h2 : (evalLoop 2 0 [((1 : Real), 1), ((1 : Real), 1)]
      (initState Real)).total_time = 0 := by
    have hc := (evalLoop_consume 2 0 [((1 : Real), 1), ((1 : Real), 1)]
      (initState Real)).2.2
    rw [hc, timedSum_eq_zero 2 _ _ (by rw [h1]; simp [initState])]
    simp [initState]
  unfold perfStage
  rw [h1, h2]
  norm_num

/-- C8: for a run with at least one post-warm-up step and nonzero accumulated
elapsed time, evaluate prints throughput
(nb_eval_steps - warmup_steps) * eval_batch_size / total_time, prints the
per-request latency total_time / (nb_eval_steps - warmup_steps), in
milliseconds, exactly when the batch size is 1, and total_time is the sum of
the durations of the accounted steps from index warmup_steps onward. -/
theorem perfStage_report (w batch it : Int) (steps : List (Real × Real))
    (s : EvalState Real) (hs : s = evalLoop w it steps (initState Real))
    (h1 : w < (s.nb_eval_steps : Int)) (h2 : s.total_time ≠ 0) :
    perfStage w batch s =
        PerfOutcome.report
          (((((s.nb_eval_steps : Int) - w) * batch : Int) : Real) / s.total_time)
          (if batch = 1 then
              some (s.total_time / ((((s.nb_eval_steps : Int) - w) : Int) : Real)
                * 1000)
            else none) ∧
      s.total_time = timedSum w 0 (steps.take s.nb_eval_steps) := by
  constructor
  · unfold perfStage
    rw [if_pos (le_of_lt h1), if_neg h2]
    by_cases hb : batch = 1
    · rw [if_pos hb, if_neg (by omega)]
      simp [hb]
    · rw [if_neg hb]
      simp [hb]
  · subst hs
    have hc := (evalLoop_consume w it steps (initState Real)).2.2
    simpa [initState] using hc

/-- Witness for C8 at a one-step run with warmup_steps = 0 and batch size 1. -/
theorem perfStage_report_witness :
    (evalLoop 0 0 [((1 : Real), 2)] (initState Real)) =
        evalLoop 0 0 [((1 : Real), 2)] (initState Real) ∧
      (0 : Int) <
        ((evalLoop 0 0 [((1 : Real), 2)] (initState Real)).nb_eval_steps : Int) ∧
      (evalLoop 0 0 [((1 : Real), 2)] (initState Real)).total_time ≠ 0 ∧
      (perfStage 0 1 (evalLoop 0 0 [((1 : Real), 2)] (initState Real)) =
          PerfOutcome.report
            ((((((evalLoop 0 0 [((1 : Real), 2)]
                  (initState Real)).nb_eval_steps : Int) - 0) * 1 : Int) : Real) /
              (evalLoop 0 0 [((1 : Real), 2)] (initState Real)).total_time)
            (if (1 : Int) = 1 then
                some ((evalLoop 0 0 [((1 : Real), 2)] (initState Real)).total_time /
                  (((((evalLoop 0 0 [((1 : Real), 2)]
                    (initState Real)).nb_eval_steps : Int) - 0) : Int) : Real) * 1000)
              else none) ∧
        (evalLoop 0 0 [((1 : Real), 2)] (initState Real)).total_time =
          timedSum 0 0
            ([((1 : Real), 2)].take
              (evalLoop 0 0 [((1 : Real), 2)] (initState Real)).nb_eval_steps)) :=
  ⟨rfl, by decide, by norm_num [evalLoop, evalStep, initState],
    perfStage_report 0 1 0 [((1 : Real), 2)] _ rfl (by decide)
      (by norm_num [evalLoop, evalStep, initState])⟩

/-- Concatenating the first K blocks of size B recovers the first K * B ids. -/
theorem flatten_window_blocks {tok : List Nat} {B : Nat} :
    ∀ K : Nat, K * B ≤ tok.length →
      ((List.range K).map (fun j => (tok.drop (j * B)).take B)).flatten =
        tok.take (K * B) := by
  intro K
  induction K with
  | zero => intro _; simp
  | succ k ih =>
      intro hK1
      rw [Nat.succ_mul] at hK1
      rw [List.range_succ, List.map_append, List.flatten_append,
        ih (by omega)]
      simp only [List.map_cons, List.map_nil, List.flatten_cons,
        List.flatten_nil, List.append_nil]
      rw [Nat.succ_mul, List.take_add]

/-- C2: for a corpus of N token ids and block size B > 0 the fresh dataset
build yields exactly N / B blocks, the j-th being the contiguous window of B
ids starting at j * B, every block has length exactly B, and the blocks
concatenate to the first B * (N / B) ids so the trailing N mod B ids appear
in no block. -/
theorem textDataset_blocks (tok : List Nat) (B : Nat) (hB : 0 < B) :
    textDatasetExamples tok B =
        (List.range (tok.length / B)).map (fun j => (tok.drop (j * B)).take B) ∧
      (textDatasetExamples tok B).length = tok.length / B ∧
      (∀ blk ∈ textDatasetExamples tok B, blk.length = B) ∧
      (textDatasetExamples tok B).flatten = tok.take (B * (tok.length / B)) := by
  have hK : (((tok.length : Int) - B + 1).toNat + B - 1) / B = tok.length / B := by
    rcases Nat.lt_or_ge tok.length B with hN | hN
    · have h1 : ((tok.length : Int) - B + 1).toNat + B - 1 = B - 1 := by omega
      rw [h1, Nat.div_eq_of_lt (by omega), Nat.div_eq_of_lt hN]
    · have h1 : ((tok.length : Int) - B + 1).toNat + B - 1 = tok.length := by
        omega
      rw [h1]
  have hmap : textDatasetExamples tok B =
      (List.range (tok.length / B)).map (fun j => (tok.drop (j * B)).take B) := by
    unfold textDatasetExamples rangeStep build_inputs_with_special_tokens
    rw [List.map_map, hK]
    rfl
  refine ⟨hmap, ?_, ?_, ?_⟩
  · rw [hmap]
    simp
  · intro blk hblk
    rw [hmap] at hblk
    simp only [List.mem_map, List.mem_range] at hblk
    obtain ⟨j, hj, rfl⟩ := hblk
    have hjB : j * B + B ≤ tok.length := by
      have hmul : (j + 1) * B ≤ (tok.length / B) * B :=
        Nat.mul_le_mul_right _ hj
      have hdiv : (tok.length / B) * B ≤ tok.length := Nat.div_mul_le_self _ _
      rw [Nat.succ_mul] at hmul
      omega
    simp only [List.length_take, List.length_drop]
    omega
  · rw [hmap, Nat.mul_comm B (tok.length / B)]
    exact flatten_window_blocks (tok.length / B) (Nat.div_mul_le_self _ _)

/-- Witness for C2 on a five-id corpus with block size 2. -/
theorem textDataset_blocks_witness :
    0 < 2 ∧
      (textDatasetExamples [0, 1, 2, 3, 4] 2 =
          (List.range (([0, 1, 2, 3, 4] : List Nat).length / 2)).map
            (fun j => (([0, 1, 2, 3, 4] : List Nat).drop (j * 2)).take 2) ∧
        (textDatasetExamples [0, 1, 2, 3, 4] 2).length =
          ([0, 1, 2, 3, 4] : List Nat).length / 2 ∧
        (∀ blk ∈ textDatasetExamples [0, 1, 2, 3, 4] 2, blk.length = 2) ∧
        (textDatasetExamples [0, 1, 2, 3, 4] 2).flatten =
          ([0, 1, 2, 3, 4] : List Nat).take
            (2 * (([0, 1, 2, 3, 4] : List Nat).length / 2))) :=
  ⟨by decide, textDataset_blocks [0, 1, 2, 3, 4] 2 (by decide)⟩

/-- C6: building once under a key triple and then constructing again with the
identical (model id, block size, filename) triple and overwrite_cache off
returns the freshly built block sequence element for element, loaded from
storage without invoking the tokenizer a second time. -/
theorem cache_round_trip (st0 : Store) (m f : List Char) (B : Nat)
    (corpus : List Nat) :
    (textDatasetInit st0 m f B true corpus).examples =
        textDatasetExamples corpus B ∧
      (textDatasetInit (textDatasetInit st0 m f B true corpus).store m f B
          false corpus).examples =
        (textDatasetInit st0 m f B true corpus).examples ∧
      (textDatasetInit (textDatasetInit st0 m f B true corpus).store m f B
          false corpus).tokenized = false := by
  have h1 : textDatasetInit st0 m f B true corpus =
      ⟨textDatasetExamples corpus B,
        updateStore st0 (cached_features_file m B f)
          (textDatasetExamples corpus B),
        true⟩ := by
    unfold textDatasetInit
    cases hst : st0 (cached_features_file m B f) with
    | none => simp [hst]
    | some v => simp [hst]
  have h3 : textDatasetInit
      (updateStore st0 (cached_features_file m B f)
        (textDatasetExamples corpus B)) m f B false corpus =
      ⟨textDatasetExamples corpus B,
        updateStore st0 (cached_features_file m B f)
          (textDatasetExamples corpus B),
        false⟩ := by
    unfold textDatasetInit updateStore
    simp
  exact ⟨by rw [h1], by rw [h1, h3], by rw [h1, h3]⟩

/-- Every decimal digit produced by digitsOf is below 10. -/
theorem digitsOf_lt (n : Nat) : ∀ d ∈ digitsOf n, d < 10 := by
  intro d hd
  unfold digitsOf at hd
  by_cases hn : n = 0
  · rw [if_pos hn] at hd
    simp only [List.mem_singleton] at hd
    omega
  · rw [if_neg hn] at hd
    exact Nat.digits_lt_base (by norm_num) hd

/-- The digit list of digitsOf determines the number. -/
theorem ofDigits_digitsOf (n : Nat) : Nat.ofDigits 10 (digitsOf n) = n := by
  unfold digitsOf
  by_cases hn : n = 0
  · rw [if_pos hn, hn]
    simp [Nat.ofDigits]
  · rw [if_neg hn]
    exact Nat.ofDigits_digits 10 n

/-- Mapping Nat.digitChar over lists of digits below 10 is injective. -/
theorem digitChar_lists_inj :
    ∀ (l1 l2 : List Nat), (∀ d ∈ l1, d < 10) → (∀ d ∈ l2, d < 10) →
      l1.map Nat.digitChar = l2.map Nat.digitChar → l1 = l2 := by
  have key : ∀ a, a < 10 → ∀ b, b < 10 →
      Nat.digitChar a = Nat.digitChar b → a = b := by decide
  intro l1
  induction l1 with
  | nil =>
      intro l2 _ _ h
      cases l2 with
      | nil => rfl
      | cons b t2 => simp at h
  | cons a t ih =>
      intro l2 h1 h2 h
      cases l2 with
      | nil => simp at h
      | cons b t2 =>
          simp only [List.map_cons, List.cons.injEq] at h
          have ha := h1 a (by simp)
          have hb := h2 b (by simp)
          have hab : a = b := key a ha b hb h.1
          rw [hab, ih t2 (fun d hd => h1 d (by simp [hd]))
            (fun d hd => h2 d (by simp [hd])) h.2]

/-- Python str is injective on natural numbers. -/
theorem numeral_inj {a b : Nat} (h : numeral a = numeral b) : a = b := by
  unfold numeral at h
  have h2 := digitChar_lists_inj _ _
    (fun d hd => digitsOf_lt a d (List.mem_reverse.mp hd))
    (fun d hd => digitsOf_lt b d (List.mem_reverse.mp hd)) h
  have h3 := List.reverse_injective h2
  calc a = Nat.ofDigits 10 (digitsOf a) := (ofDigits_digitsOf a).symm
    _ = Nat.ofDigits 10 (digitsOf b) := by rw [h3]
    _ = b := ofDigits_digitsOf b

/-- No character of a numeral is an underscore. -/
theorem numeral_no_underscore (n : Nat) : ∀ c ∈ numeral n, c ≠ '_' := by
  have key : ∀ d, d < 10 → Nat.digitChar d ≠ '_' := by decide
  intro c hc
  unfold numeral at hc
  simp only [List.mem_map, List.mem_reverse] at hc
  obtain ⟨d, hd, rfl⟩ := hc
  exact key d (digitsOf_lt n d hd)

/-- Two concatenations of an underscore-free block, an underscore and a
remainder agree only blockwise. -/
theorem underscore_split :
    ∀ (d1 d2 r1 r2 : List Char), (∀ c ∈ d1, c ≠ '_') → (∀ c ∈ d2, c ≠ '_') →
      d1 ++ '_' :: r1 = d2 ++ '_' :: r2 → d1 = d2 ∧ r1 = r2 := by
  intro d1
  induction d1 with
  | nil =>
      intro d2 r1 r2 _ h2 h
      cases d2 with
      | nil =>
          simp only [List.nil_append, List.cons.injEq] at h
          exact ⟨rfl, h.2⟩
      | cons b t2 =>
          simp only [List.nil_append, List.cons_append, List.cons.injEq] at h
          exact absurd h.1.symm (h2 b (by simp))
  | cons a t ih =>
      intro d2 r1 r2 h1 h2 h
      cases d2 with
      | nil =>
          simp only [List.nil_append, List.cons_append, List.cons.injEq] at h
          exact absurd h.1 (h1 a (by simp))
      | cons b t2 =>
          simp only [List.cons_append, List.cons.injEq] at h
          obtain ⟨hd, ht⟩ := h
          obtain ⟨e1, e2⟩ := ih t2 r1 r2 (fun c hc => h1 c (by simp [hc]))
            (fun c hc => h2 c (by simp [hc])) ht
          exact ⟨by rw [hd, e1], e2⟩

/-- Splitting at the last underscore before an underscore-free tail. -/
theorem underscore_split_last {s1 s2 d1 d2 : List Char}
    (h1 : ∀ c ∈ d1, c ≠ '_') (h2 : ∀ c ∈ d2, c ≠ '_')
    (h : s1 ++ '_' :: d1 = s2 ++ '_' :: d2) : s1 = s2 ∧ d1 = d2 := by
  have hrev := congrArg List.reverse h
  simp only [List.reverse_append, List.reverse_cons, List.append_assoc,
    List.singleton_append] at hrev
  obtain ⟨e1, e2⟩ := underscore_split d1.reverse d2.reverse s1.reverse
    s2.reverse (fun c hc => h1 c (List.mem_reverse.mp hc))
    (fun c hc => h2 c (List.mem_reverse.mp hc)) hrev
  exact ⟨List.reverse_injective e2, List.reverse_injective e1⟩

/-- The cache path regrouped around its two final underscores. -/
theorem cached_features_file_decomp (m : List Char) (b : Nat) (f : List Char) :
    cached_features_file m b f =
      ((dirNamePart ++ m ++ "_cached_lm".data) ++ '_' :: numeral b) ++
        '_' :: f := by
  unfold cached_features_file
  have hsep : cacheSep = "_cached_lm".data ++ ['_'] := by rfl
  rw [hsep]
  simp [List.append_assoc]

/-- C5: the cache key is injective in the model identifier and the block size
for a fixed source filename: two triples naming the same file but differing
in model id or block size derive different cache paths, so a build under one
triple never loads the artifact cached under the other. -/
theorem cached_features_file_injective (m1 m2 f : List Char) (b1 b2 : Nat)
    (hne : m1 ≠ m2 ∨ b1 ≠ b2) :
    cached_features_file m1 b1 f ≠ cached_features_file m2 b2 f := by
  intro h
  rw [cached_features_file_decomp m1 b1 f,
    cached_features_file_decomp m2 b2 f] at h
  have h2 := List.append_cancel_right h
  obtain ⟨h3, h4⟩ := underscore_split_last (numeral_no_underscore b1)
    (numeral_no_underscore b2) h2
  have hb : b1 = b2 := numeral_inj h4
  have hm : m1 = m2 :=
    List.append_cancel_left (List.append_cancel_right h3)
  rcases hne with hne | hne
  · exact hne hm
  · exact hne hb

/-- Witness for C5: same model and file, block sizes 512 and 256. -/
theorem cached_features_file_injective_witness :
    ("gpt2".data ≠ "gpt2".data ∨ 512 ≠ 256) ∧
      cached_features_file "gpt2".data 512 "wiki.test.raw".data ≠
        cached_features_file "gpt2".data 256 "wiki.test.raw".data :=
  ⟨Or.inr (by decide),
    cached_features_file_injective "gpt2".data "gpt2".data
      "wiki.test.raw".data 512 256 (Or.inr (by decide))⟩

/-- The shape bound to the i-th declared input name: i + 1 unit axes prepended
to the dataloader batch shape. -/
theorem ortInputShapes_getD :
    ∀ (n : Nat) (batchShape : List Nat) (i : Nat), i < n →
      (ortInputShapes n batchShape).getD i [] =
        List.replicate (i + 1) 1 ++ batchShape := by
  intro n
  induction n with
  | zero => intro batchShape i hi; omega
  | succ m ih =>
      intro batchShape i hi
      cases i with
      | zero =>
          simp [ortInputShapes, expand_dims0]
      | succ j =>
          have hj : j < m := by omega
          simp only [ortInputShapes, List.getD_cons_succ]
          rw [ih (expand_dims0 batchShape) j hj]
          simp [expand_dims0, List.replicate_succ', List.append_assoc]

/-- C7 counterexample: with one declared input name and a dataloader batch of
one block of 512 ids, the bound tensor has shape (1, 1, 512) — rank 3 — and
not the rank-2 shape (1, 512) stated by the claim. -/
theorem ortInputShapes_counterexample :
    ortInputShapes 1 [1, 512] = [[1, 1, 512]] ∧
      ([[1, 1, 512]] : List (List Nat)) ≠ [[1, 512]] := by
  constructor
  · decide
  · decide

/-- C7 amended: the tensor bound to the i-th declared input name is the whole
dataloader batch with i + 1 unit axes prepended (shape 1^(i+1) ++ batch
shape), since the loop re-expands the running tensor once per input name, and
the value interpreted as logits is the first declared output of the session
run. -/
theorem ortInputShapes_spec (n : Nat) (batchShape : List Nat) (i : Nat)
    (h : i < n) :
    (ortInputShapes n batchShape).getD i [] =
        List.replicate (i + 1) 1 ++ batchShape ∧
      ∀ (p : List Int) (rest : List (List Int)),
        lmLogitsOf (p :: rest) = some p :=
  ⟨ortInputShapes_getD n batchShape i h, fun _ _ => rfl⟩

/-- Witness for the amended C7 with two declared inputs and batch shape
(4, 512). -/
theorem ortInputShapes_spec_witness :
    1 < 2 ∧
      ((ortInputShapes 2 [4, 512]).getD 1 [] =
          List.replicate (1 + 1) 1 ++ [4, 512] ∧
        ∀ (p : List Int) (rest : List (List Int)),
          lmLogitsOf (p :: rest) = some p) :=
  ⟨by decide, ortInputShapes_spec 2 [4, 512] 1 (by decide)⟩

/-- Pairing a dropLast of one list against the tail of another of the same
length pairs position i of the first with position i + 1 of the second. -/
theorem zip_dropLast_tail {X Y : Type} (da : X) (db : Y) :
    ∀ (P : List X) (Q : List Y), P.length = Q.length →
      P.dropLast.zip (Q.drop 1) =
        (List.range (Q.length - 1)).map
          (fun i => (P.getD i da, Q.getD (i + 1) db)) := by
  intro P
  induction P with
  | nil =>
      intro Q hQ
      have : Q = [] := List.eq_nil_of_length_eq_zero hQ.symm
      subst this
      simp
  | cons a t ih =>
      intro Q hQ
      cases Q with
      | nil => simp at hQ
      | cons b t2 =>
          simp only [List.length_cons, Nat.add_right_cancel_iff] at hQ
          cases t with
          | nil =>
              have : t2 = [] := List.eq_nil_of_length_eq_zero hQ.symm
              subst this
              simp
          | cons a2 t3 =>
              cases t2 with
              | nil => simp at hQ
              | cons b2 t4 =>
                  have hlen : (a2 :: t3).length = (b2 :: t4).length := hQ
                  have ihh := ih (b2 :: t4) hlen
                  simp only [List.drop_one, List.tail_cons] at ihh
                  simp only [List.dropLast_cons₂, List.drop_succ_cons,
                    List.drop_zero, List.zip_cons_cons, ihh]
                  simp only [List.length_cons, Nat.add_sub_cancel]
                  rw [List.range_succ_eq_map, List.map_cons, List.map_map]
                  simp [Function.comp, List.getD_cons_zero, List.getD_cons_succ]

/-- Filtering after a map equals mapping after filtering by the composed
predicate. -/
theorem filter_after_map {X Y : Type} (g : X → Y) (p : Y → Bool) :
    ∀ l : List X, (l.map g).filter p = (l.filter (fun x => p (g x))).map g := by
  intro l
  induction l with
  | nil => simp
  | cons a t ih =>
      by_cases hp : p (g a) = true
      · simp [List.filter_cons, hp, ih]
      · simp [List.filter_cons, hp, ih]

/-- C9: the per-block lm_loss computed from the shifted and flattened tensors
is the mean of the per-row vocabulary cross-entropy evaluated at the pairs
(logits at position i, own token at position i + 1) for i in
0 .. block_size - 2, restricted to the pairs whose label differs from the
reserved ignore-index -1. -/
theorem lm_loss_shifted {A : Type} [Field A] (cel : List A → Int → A)
    (lm_logits : List (List A)) (labels : List Int)
    (h : lm_logits.length = labels.length) :
    lm_loss cel lm_logits labels =
      (((List.range (labels.length - 1)).filter
            (fun i => labels.getD (i + 1) 0 ≠ -1)).map
          (fun i => cel (lm_logits.getD i []) (labels.getD (i + 1) 0))).sum /
        ((((List.range (labels.length - 1)).filter
            (fun i => labels.getD (i + 1) 0 ≠ -1)).length : Nat) : A) := by
  unfold lm_loss CrossEntropyLossMean
  rw [zip_dropLast_tail ([] : List A) (0 : Int) lm_logits labels h]
  rw [filter_after_map]
  simp [List.map_map, Function.comp, List.length_map]
  rfl

/-- Witness for C9 on a three-position block whose last shifted label is the
ignore-index. -/
theorem lm_loss_shifted_witness :
    ([[(1 : Rat)], [2], [3]] : List (List Rat)).length =
        ([5, 7, -1] : List Int).length ∧
      lm_loss (fun v y => v.getD y.toNat 0)
          ([[(1 : Rat)], [2], [3]] : List (List Rat)) [5, 7, -1] =
        (((List.range (([5, 7, -1] : List Int).length - 1)).filter
              (fun i => ([5, 7, -1] : List Int).getD (i + 1) 0 ≠ -1)).map
            (fun i => (fun v y => v.getD y.toNat 0)
              (([[(1 : Rat)], [2], [3]] : List (List Rat)).getD i [])
              (([5, 7, -1] : List Int).getD (i + 1) 0))).sum /
          ((((List.range (([5, 7, -1] : List Int).length - 1)).filter
              (fun i => ([5, 7, -1] : List Int).getD (i + 1) 0 ≠ -1)).length :
            Nat) : Rat) :=
  ⟨by decide,
    lm_loss_shifted (fun v y => v.getD y.toNat 0)
      ([[(1 : Rat)], [2], [3]] : List (List Rat)) [5, 7, -1] (by decide)⟩
